import Mathlib

/-!
Verification of the AllanJS estimator engine (src/allan.js).

The JavaScript source is shallowly embedded over exact rationals.  All
loops of the source are translated to folds or maps over explicit index
lists; JavaScript integer loop bounds such as `i < len - 2*m` (which may
be negative) become truncated natural subtractions, which agree with the
iteration counts of the source loops.  `Math.sqrt` is kept as an abstract
parameter `sq : Q -> Q`, so every theorem quantifies over it; the shape of
each result (`sq` applied to an exactly-computed rational, divided by `m`,
or the literal `0`) is exactly the shape of the source expression.

Statistics whose loops can read past the end of an array (the windowed
average, max and min getters and `getStdev`) are embedded over a model
`JVal` of JavaScript numbers with `NaN` and the two infinities, so that
out-of-bounds reads (`undefined`, which behaves as `NaN` in arithmetic)
are represented faithfully.
-/

/-- `m = m || 1` of the source: a falsy averaging factor is coerced to 1. -/
def orOne (m : ℕ) : ℕ := if m = 0 then 1 else m

/-- In-bounds array read `a[i]` (used only where the source indices are
provably inside the array). -/
def xg (a : List ℚ) (i : ℕ) : ℚ := a.getD i 0

/-- Array read at a JavaScript (possibly negative) index. -/
def zg (a : List ℚ) (i : ℤ) : ℚ := if i < 0 then 0 else xg a i.toNat

/-- `phaseToFreq` (allan.js lines 92-102): `y[i] = (x[i+1] - x[i]) / m`
for `i + 1 < x.length`, after the `m = m || 1` coercion. -/
def phaseToFreq (x : List ℚ) (m0 : ℕ) : List ℚ :=
  let m := orOne m0
  (List.range (x.length - 1)).map (fun i => (xg x (i + 1) - xg x i) / m)

/-- The loop body of `freqToPhase`: starting from the accumulated phase
`acc`, emit `acc` and continue with `acc + y[i] * m`. -/
def freqToPhaseGo (m : ℕ) : ℚ → List ℚ → List ℚ
  | acc, [] => [acc]
  | acc, yi :: rest => acc :: freqToPhaseGo m (acc + yi * m) rest

/-- `freqToPhase` (allan.js lines 111-121): `x[0] = 0`,
`x[i] = x[i-1] + y[i-1] * m`, after the `m = m || 1` coercion. -/
def freqToPhase (y : List ℚ) (m0 : ℕ) : List ℚ :=
  freqToPhaseGo (orOne m0) 0 y

/-- `MIN_SAMPLES` (allan.js line 25): minimum number of accumulation terms
for a deviation estimator to produce a nonzero result. -/
def MIN_SAMPLES : ℕ := 3

/-- Second phase difference `x[i+2m] - 2 x[i+m] + x[i]`. -/
def secondDiff (x : List ℚ) (m i : ℕ) : ℚ :=
  xg x (i + 2 * m) - 2 * xg x (i + m) + xg x i

/-- Third phase difference `x[i+3m] - 3 x[i+2m] + 3 x[i+m] - x[i]`. -/
def thirdDiff (x : List ℚ) (m i : ℕ) : ℚ :=
  xg x (i + 3 * m) - 3 * xg x (i + 2 * m) + 3 * xg x (i + m) - xg x i

/-- Index list of the loop `for (i = 0; i < bound; i += m)`. -/
def stepIdx (bound m : ℕ) : List ℕ := List.range' 0 ((bound + m - 1) / m) m

/-- `getAdev` (allan.js lines 572-587), cache-miss computation: the loop
`for (i = 0; i < len - 2*m; i++)` accumulates squared second differences
into `sum` and counts terms in `n`; result `sqrt(sum / (2n)) / m` when
`n > MIN_SAMPLES`, else `0`. -/
def adev (sq : ℚ → ℚ) (x : List ℚ) (m0 : ℕ) : ℚ :=
  let m := orOne m0
  let len := x.length
  let p := (List.range (len - 2 * m)).foldl
    (fun (p : ℚ × ℕ) i => (p.1 + secondDiff x m i * secondDiff x m i, p.2 + 1)) (0, 0)
  if p.2 > MIN_SAMPLES then sq (p.1 / (2 * p.2)) / m else 0

/-- `getOadev` (allan.js lines 601-616): same accumulation as `getAdev`
but the loop steps `i` by `m`. -/
def oadev (sq : ℚ → ℚ) (x : List ℚ) (m0 : ℕ) : ℚ :=
  let m := orOne m0
  let len := x.length
  let p := (stepIdx (len - 2 * m) m).foldl
    (fun (p : ℚ × ℕ) i => (p.1 + secondDiff x m i * secondDiff x m i, p.2 + 1)) (0, 0)
  if p.2 > MIN_SAMPLES then sq (p.1 / (2 * p.2)) / m else 0

/-- `getMdev` (allan.js lines 632-653): running third-difference
accumulator; the first loop runs while `i < len - 2m` and `i < m`, the
second while `i < len - 3m`, with `sum += v*v; n++` once before the
second loop and once per iteration. -/
def mdev (sq : ℚ → ℚ) (x : List ℚ) (m0 : ℕ) : ℚ :=
  let m := orOne m0
  let len := x.length
  let v0 := ((List.range (min (len - 2 * m) m)).map (fun i => secondDiff x m i)).sum
  let t := (List.range (len - 3 * m)).foldl
    (fun (p : ℚ × ℚ × ℕ) i =>
      let w := p.1 + thirdDiff x m i
      (w, p.2.1 + w * w, p.2.2 + 1)) (v0, v0 * v0, 1)
  if t.2.2 > MIN_SAMPLES then sq (t.2.1 / (2 * m * m * t.2.2)) / m else 0

/-- `getTdev` (allan.js lines 665-675): `getMdev(m) * m / Math.sqrt(3)`. -/
def tdev (sq : ℚ → ℚ) (x : List ℚ) (m0 : ℕ) : ℚ :=
  let m := orOne m0
  mdev sq x m * m / sq 3

/-- `getHdev` (allan.js lines 689-704): squared third differences over
`for (i = 0; i < len - 3*m; i++)`; result `sqrt(sum / (6n)) / m`. -/
def hdev (sq : ℚ → ℚ) (x : List ℚ) (m0 : ℕ) : ℚ :=
  let m := orOne m0
  let len := x.length
  let p := (List.range (len - 3 * m)).foldl
    (fun (p : ℚ × ℕ) i => (p.1 + thirdDiff x m i * thirdDiff x m i, p.2 + 1)) (0, 0)
  if p.2 > MIN_SAMPLES then sq (p.1 / (6 * p.2)) / m else 0

/-- `getOhdev` (allan.js lines 718-733): same as `getHdev` with the loop
stepping `i` by `m`. -/
def ohdev (sq : ℚ → ℚ) (x : List ℚ) (m0 : ℕ) : ℚ :=
  let m := orOne m0
  let len := x.length
  let p := (stepIdx (len - 3 * m) m).foldl
    (fun (p : ℚ × ℕ) i => (p.1 + thirdDiff x m i * thirdDiff x m i, p.2 + 1)) (0, 0)
  if p.2 > MIN_SAMPLES then sq (p.1 / (6 * p.2)) / m else 0

/-- The extension loop of `getTotdev` (allan.js lines 757-761): starting
from `nx = this.x.slice(0)`, for `i = 1 .. len-2` prepend
`2*x[0] - x[i]` (unshift) and append `2*x[len-1] - x[len-1-i]` (push). -/
def totdevNx (x : List ℚ) : List ℚ :=
  (List.range (x.length - 2)).foldl
    (fun nx k =>
      ((2 * xg x 0 - xg x (k + 1)) :: nx) ++
        [2 * xg x (x.length - 1) - xg x (x.length - 1 - (k + 1))])
    x

/-- `getTotdev` (allan.js lines 747-773): after the mirror extension,
when the guard `e + len + m - 1 <= 3*len - 4` holds, accumulate centered
squared second differences `nx[e+i-m] - 2 nx[e+i] + nx[e+i+m]` for
`i = 1 .. len-2`, halve the sum; result `sqrt(sum / n) / m` when
`n > MIN_SAMPLES`, else `0`. -/
def totdev (sq : ℚ → ℚ) (x : List ℚ) (m0 : ℕ) : ℚ :=
  let len := x.length
  let nx := totdevNx x
  let m := orOne m0
  let e := len - 2
  let sn : ℚ × ℕ :=
    if (e : ℤ) + len + m - 1 ≤ 3 * len - 4 then
      ((((List.range e).map (fun (k : ℕ) =>
        let v := zg nx ((e : ℤ) + (k + 1) - m) - 2 * zg nx ((e : ℤ) + (k + 1)) +
          zg nx ((e : ℤ) + (k + 1) + m)
        v * v)).sum) / 2, e)
    else (0, 0)
  if sn.2 > MIN_SAMPLES then sq (sn.1 / sn.2) / m else 0

/-- One iteration of the outer loop of `getMtotdev` / `getHtotdev`
(allan.js lines 801-835 and 890-924), at outer index `n`: estimate the
drift `f`, detrend into `zx`, build the triply reflected extension
(represented here by its value `nxr j` at offset `j = index - n`, using
the three disjoint assignment ranges of the source), and sum the squared
second differences of the three adjacent block averages; returns the
`sum / 6 * m` that the source adds to `d`.  The inner loop index
`i = n - 3m .. n + 3m - 1` of the source is represented by its offset
`k = i - (n - 3m)`, so the access `nx[i + 3m + j]` is at offset
`k + j` from `n`. -/
def mtotInner (x : List ℚ) (m half n : ℕ) : ℚ :=
  let h := 3 * m / 2
  let f := (((List.range h).map
    (fun i => (xg x (n + i + half) - xg x (n + i)) / (half : ℚ))).sum) / (h : ℚ)
  let zx := fun i : ℕ => xg x (n + i) - f * i
  let nxr := fun j : ℕ =>
    if j < 3 * m then zx (3 * m - j - 1)
    else if j < 6 * m then zx (j - 3 * m)
    else zx (9 * m - j - 1)
  let s := ((List.range (6 * m)).map (fun k =>
    let av1 := (((List.range m).map (fun j => nxr (k + j))).sum) / (m : ℚ)
    let av2 := (((List.range m).map (fun j => nxr (k + m + j))).sum) / (m : ℚ)
    let av3 := (((List.range m).map (fun j => nxr (k + 2 * m + j))).sum) / (m : ℚ)
    let v := av1 - 2 * av2 + av3
    v * v)).sum
  s / 6 * m

/-- `getMtotdev` (allan.js lines 787-841).  Note that `half` is computed
from the argument before the `m = m || 1` coercion; the outer loop runs
`n = 0 .. len - 3m`, the final gate reuses the loop counter `n`, and the
result is `sqrt((d / (2*(len-3m+1))) / 0.73) / (m*m)`. -/
def mtotdev (sq : ℚ → ℚ) (x : List ℚ) (m0 : ℕ) : ℚ :=
  let len := x.length
  let half := (3 * m0 + 1) / 2
  let m := orOne m0
  let cnt := (len + 1) - 3 * m
  let d := ((List.range cnt).map (fun n => mtotInner x m half n)).sum
  let d2 := d / (2 * ((len : ℚ) - 3 * m + 1))
  if cnt > MIN_SAMPLES then sq (d2 / (73 / 100)) / ((m : ℚ) * m) else 0

/-- `getTtotdev` (allan.js lines 853-863): `getMtotdev(m) * m / Math.sqrt(3)`,
called with the already-coerced `m`. -/
def ttotdev (sq : ℚ → ℚ) (x : List ℚ) (m0 : ℕ) : ℚ :=
  let m := orOne m0
  mtotdev sq x m * m / sq 3

/-- `getHtotdev` (allan.js lines 877-929): structurally the computation of
`getMtotdev` applied to the frequency array, with divisor `6*(len-3m+1)`,
no bias division and no `m*m` divisor (`half` again precedes the coercion). -/
def htotdev (sq : ℚ → ℚ) (y : List ℚ) (m0 : ℕ) : ℚ :=
  let len := y.length
  let half := (3 * m0 + 1) / 2
  let m := orOne m0
  let cnt := (len + 1) - 3 * m
  let d := ((List.range cnt).map (fun n => mtotInner y m half n)).sum
  let d2 := d / (6 * ((len : ℚ) - 3 * m + 1))
  if cnt > MIN_SAMPLES then sq d2 else 0

/-- Valid-term count of `getAdev`: iterations of `for (i=0; i<len-2m; i++)`. -/
def adevN (x : List ℚ) (m : ℕ) : ℕ := x.length - 2 * m

/-- Valid-term count of `getOadev`: iterations of `for (i=0; i<len-2m; i+=m)`. -/
def oadevN (x : List ℚ) (m : ℕ) : ℕ := ((x.length - 2 * m) + m - 1) / m

/-- Valid-term count of `getMdev`: one initial term plus the iterations of
`for (i=0; i<len-3m; i++)`. -/
def mdevN (x : List ℚ) (m : ℕ) : ℕ := (x.length - 3 * m) + 1

/-- Valid-term count of `getHdev`. -/
def hdevN (x : List ℚ) (m : ℕ) : ℕ := x.length - 3 * m

/-- Valid-term count of `getOhdev`. -/
def ohdevN (x : List ℚ) (m : ℕ) : ℕ := ((x.length - 3 * m) + m - 1) / m

/-- Valid-term count of `getTotdev`: `len - 2` when the boundary guard
holds, otherwise `0`. -/
def totdevN (x : List ℚ) (m : ℕ) : ℕ :=
  if ((x.length - 2 : ℕ) : ℤ) + x.length + m - 1 ≤ 3 * x.length - 4 then
    x.length - 2
  else 0

/-- Valid-term count of `getMtotdev`: iterations of
`for (n=0; n<len-3m+1; n++)` (the final gate reuses the loop counter). -/
def mtotdevN (x : List ℚ) (m : ℕ) : ℕ := (x.length + 1) - 3 * m

/-- Valid-term count of `getHtotdev`. -/
def htotdevN (y : List ℚ) (m : ℕ) : ℕ := (y.length + 1) - 3 * m

/-- The ADEV computation in the words of the specification: accumulate
`v = x[i+2m] - 2 x[i+m] + x[i]` squared for every `i` with
`0 <= i < N - 2m` (the index advancing by 1), let `n` be the number of
terms, and return `sqrt(sum / (2n)) / m` if `n > 3`, else `0`. -/
def adevSpec (sq : ℚ → ℚ) (x : List ℚ) (m : ℕ) : ℚ :=
  let n := x.length - 2 * m
  let s := ((List.range n).map
    (fun i => (xg x (i + 2 * m) - 2 * xg x (i + m) + xg x i) ^ 2)).sum
  if 3 < n then sq (s / (2 * n)) / m else 0

/-- Model of a JavaScript number as used by the windowed statistics:
an exact rational, `NaN`, or one of the two infinities. -/
inductive JVal : Type
  | num (q : ℚ)
  | nan
  | inf
  | ninf
deriving DecidableEq, Repr

/-- JavaScript addition on `JVal`. -/
def jadd : JVal → JVal → JVal
  | .nan, _ => .nan
  | _, .nan => .nan
  | .num a, .num b => .num (a + b)
  | .num _, .inf => .inf
  | .inf, .num _ => .inf
  | .num _, .ninf => .ninf
  | .ninf, .num _ => .ninf
  | .inf, .inf => .inf
  | .ninf, .ninf => .ninf
  | .inf, .ninf => .nan
  | .ninf, .inf => .nan

/-- JavaScript negation on `JVal`. -/
def jneg : JVal → JVal
  | .nan => .nan
  | .num a => .num (-a)
  | .inf => .ninf
  | .ninf => .inf

/-- JavaScript subtraction on `JVal`. -/
def jsub (a b : JVal) : JVal := jadd a (jneg b)

/-- JavaScript multiplication on `JVal`. -/
def jmul : JVal → JVal → JVal
  | .nan, _ => .nan
  | _, .nan => .nan
  | .num a, .num b => .num (a * b)
  | .num a, .inf => if 0 < a then .inf else if a < 0 then .ninf else .nan
  | .inf, .num a => if 0 < a then .inf else if a < 0 then .ninf else .nan
  | .num a, .ninf => if 0 < a then .ninf else if a < 0 then .inf else .nan
  | .ninf, .num a => if 0 < a then .ninf else if a < 0 then .inf else .nan
  | .inf, .inf => .inf
  | .ninf, .ninf => .inf
  | .inf, .ninf => .ninf
  | .ninf, .inf => .ninf

/-- JavaScript division on `JVal` (division by zero gives an infinity or
`NaN` as in IEEE-754). -/
def jdiv : JVal → JVal → JVal
  | .nan, _ => .nan
  | _, .nan => .nan
  | .num a, .num b =>
    if b ≠ 0 then .num (a / b)
    else if 0 < a then .inf else if a < 0 then .ninf else .nan
  | .num _, .inf => .num 0
  | .num _, .ninf => .num 0
  | .inf, .num b => if 0 ≤ b then .inf else .ninf
  | .ninf, .num b => if 0 ≤ b then .ninf else .inf
  | .inf, .inf => .nan
  | .inf, .ninf => .nan
  | .ninf, .inf => .nan
  | .ninf, .ninf => .nan

/-- JavaScript strict greater-than on `JVal` (false whenever a `NaN` is
involved). -/
def jgt : JVal → JVal → Bool
  | .nan, _ => false
  | _, .nan => false
  | .num a, .num b => a > b
  | .num _, .inf => false
  | .num _, .ninf => true
  | .inf, .num _ => true
  | .ninf, .num _ => false
  | .inf, .inf => false
  | .inf, .ninf => true
  | .ninf, .inf => false
  | .ninf, .ninf => false

/-- JavaScript strict less-than on `JVal`. -/
def jlt : JVal → JVal → Bool
  | .nan, _ => false
  | _, .nan => false
  | .num a, .num b => a < b
  | .num _, .inf => true
  | .num _, .ninf => false
  | .inf, .num _ => false
  | .ninf, .num _ => true
  | .inf, .inf => false
  | .inf, .ninf => false
  | .ninf, .inf => true
  | .ninf, .ninf => false

/-- JavaScript `Math.sqrt` on `JVal`, with the square root of a
nonnegative rational kept abstract as `sq`. -/
def jsqrt (sq : ℚ → ℚ) : JVal → JVal
  | .nan => .nan
  | .num a => if a < 0 then .nan else .num (sq a)
  | .inf => .inf
  | .ninf => .nan

/-- Array read `a[i]` of a numeric array as a JavaScript value: reading
past the end gives `undefined`, which behaves as `NaN` in arithmetic. -/
def jget (a : List ℚ) (i : ℕ) : JVal :=
  match a.get? i with
  | some q => .num q
  | none => .nan

/-- `_arrayAvg` (allan.js lines 214-226): sum `a[i+j]` for `j < m` and
divide by `m`. -/
def arrayAvg (i m : ℕ) (a : List ℚ) : JVal :=
  jdiv ((List.range m).foldl (fun s j => jadd s (jget a (i + j))) (.num 0)) (.num m)

/-- `getPhaseAvg` / `getFreqAvg` (allan.js lines 258-271 and 279-292),
cache-miss computation on a sample array `a`: sum the block averages at
`i = 0, m, 2m, ...` for `i < len`, then `sum * m / len`. -/
def windowAvg (a : List ℚ) (m0 : ℕ) : JVal :=
  let m := orOne m0
  let len := a.length
  jdiv (jmul ((stepIdx len m).foldl (fun s i => jadd s (arrayAvg i m a)) (.num 0))
    (.num m)) (.num len)

/-- `getPhaseMax` / `getFreqMax` (allan.js lines 300-332), cache-miss
computation: start from `-Infinity` and keep every block average that
compares strictly greater. -/
def windowMax (a : List ℚ) (m0 : ℕ) : JVal :=
  let m := orOne m0
  (stepIdx a.length m).foldl
    (fun cur i => let v := arrayAvg i m a; if jgt v cur then v else cur) .ninf

/-- `getPhaseMin` / `getFreqMin` (allan.js lines 340-372), cache-miss
computation: start from `Infinity` and keep every block average that
compares strictly less. -/
def windowMin (a : List ℚ) (m0 : ℕ) : JVal :=
  let m := orOne m0
  (stepIdx a.length m).foldl
    (fun cur i => let v := arrayAvg i m a; if jlt v cur then v else cur) .inf

/-- `getStdev` (allan.js lines 542-558), cache-miss computation, given the
value `a` returned by `getFreqAvg(m)`: accumulate `(avg(i,m) - a)^2` over
`i = 0, m, 2m, ... < len` and return `sqrt(sum / (len/m - 1))`. -/
def stdevBody (sq : ℚ → ℚ) (y : List ℚ) (m : ℕ) (a : JVal) : JVal :=
  let len := y.length
  let s := (stepIdx len m).foldl
    (fun s i => let v := jsub (arrayAvg i m y) a; jadd s (jmul v v)) (.num 0)
  jsqrt sq (jdiv s (jsub (jdiv (.num len) (.num m)) (.num 1)))

/-- `getStdev` as a pure function of the frequency array. -/
def stdev (sq : ℚ → ℚ) (y : List ℚ) (m0 : ℕ) : JVal :=
  let m := orOne m0
  stdevBody sq y m (windowAvg y m)

/-- Sum of a list of JavaScript values, starting from `0`. -/
def jsum (l : List JVal) : JVal := l.foldl jadd (.num 0)

/-- Block average in the words of the specification: the mean of
`a[i..i+m-1]`, as the JavaScript expression computes it. -/
def blockMean (a : List ℚ) (i m : ℕ) : JVal :=
  jdiv (jsum ((List.range m).map (fun j => jget a (i + j)))) (.num m)

/-- One iteration of the outer loop of `getMtotdev` (allan.js lines
801-835) in JavaScript-number semantics: the same computation as
`mtotInner`, but with every arithmetic operation on `JVal`, so that the
division by `half` is a genuine JavaScript division (in particular
`0 / 0 = NaN` when `half = 0`, which then poisons the detrended segment
`zx`, the reflected extension and the accumulated sum, exactly as in the
source). -/
def jmtotInner (x : List ℚ) (m half n : ℕ) : JVal :=
  let h := 3 * m / 2
  let f := jdiv (jsum ((List.range h).map
    (fun i => jdiv (jsub (jget x (n + i + half)) (jget x (n + i)))
      (.num half)))) (.num h)
  let zx := fun i : ℕ => jsub (jget x (n + i)) (jmul f (.num i))
  let nxr := fun j : ℕ =>
    if j < 3 * m then zx (3 * m - j - 1)
    else if j < 6 * m then zx (j - 3 * m)
    else zx (9 * m - j - 1)
  let s := jsum ((List.range (6 * m)).map (fun k =>
    let av1 := jdiv (jsum ((List.range m).map (fun j => nxr (k + j)))) (.num m)
    let av2 := jdiv (jsum ((List.range m).map (fun j => nxr (k + m + j))))
      (.num m)
    let av3 := jdiv (jsum ((List.range m).map (fun j => nxr (k + 2 * m + j))))
      (.num m)
    let v := jadd (jsub av1 (jmul (.num 2) av2)) av3
    jmul v v))
  jmul (jdiv s (.num 6)) (.num m)

/-- `getMtotdev` (allan.js lines 787-841) in JavaScript-number semantics:
`half` is computed from the argument before the `m = m || 1` coercion,
the outer loop runs `n = 0 .. len - 3m`, the gate reuses the loop
counter, and the result is `sqrt((d / (2*(len-3m+1))) / 0.73) / (m*m)`.
Unlike the exact-rational `mtotdev`, this model reproduces the NaN
produced by the source when `half = 0` (uncoerced `m = 0`); for `m >= 1`
no division by zero or out-of-bounds read occurs and the two models
agree. -/
def jmtotdev (sq : ℚ → ℚ) (x : List ℚ) (m0 : ℕ) : JVal :=
  let len := x.length
  let half := (3 * m0 + 1) / 2
  let m := orOne m0
  let cnt := (len + 1) - 3 * m
  let d := jsum ((List.range cnt).map (fun n => jmtotInner x m half n))
  let d2 := jdiv d (.num (2 * ((len : ℚ) - 3 * m + 1)))
  if cnt > MIN_SAMPLES then
    jdiv (jsqrt sq (jdiv d2 (.num (73 / 100)))) (.num ((m : ℚ) * m))
  else .num 0

/-- The mirror-extended phase sequence in the words of the specification,
at centered index `c`: `2 x[0] - x[-c]` for `c < 0`, `x[c]` inside the
array, and `2 x[N-1] - x[2(N-1) - c]` past the right end. -/
def mirrorExt (x : List ℚ) (c : ℤ) : ℚ :=
  if c < 0 then 2 * xg x 0 - xg x (-c).toNat
  else if c < x.length then xg x c.toNat
  else 2 * xg x (x.length - 1) - xg x (2 * (x.length : ℤ) - 2 - c).toNat

/-- `getTotdev` in the words of the specification: mirror-extend the
phase array at both ends; only when the guard
`e + len + m - 1 <= 3*len - 4` holds, accumulate the centered second
differences of the extension over `i = 1 .. N-2`, halve the sum, and
return `sqrt(sum/n)/m` when `n > 3`; otherwise the sum stays `0` and the
result is `0`. -/
def totdevSpec (sq : ℚ → ℚ) (x : List ℚ) (m : ℕ) : ℚ :=
  let len := x.length
  if ((len - 2 : ℕ) : ℤ) + len + m - 1 ≤ 3 * len - 4 then
    let n := len - 2
    let s := (((List.range (len - 2)).map (fun (k : ℕ) =>
      (mirrorExt x ((k : ℤ) + 1 - m) - 2 * mirrorExt x ((k : ℤ) + 1) +
        mirrorExt x ((k : ℤ) + 1 + m)) ^ 2)).sum) / 2
    if 3 < n then sq (s / n) / m else 0
  else 0

/-- The statistics cached as rational deviation values in
`Dataset.values` (allan.js lines 38-56). -/
inductive QStat : Type
  | adev | oadev | mdev | tdev | hdev | ohdev | totdev | mtotdev
  | ttotdev | htotdev
deriving DecidableEq, Repr

/-- The statistics cached as JavaScript numeric values in
`Dataset.values` (allan.js lines 38-56). -/
inductive JStat : Type
  | xavg | xmax | xmin | yavg | ymax | ymin | stdev
deriving DecidableEq, Repr

/-- The mutable state of an `Allan.Dataset` (allan.js lines 33-58): the
phase samples `x`, the frequency samples `y`, and the per-statistic
memoization table `values`, split by cached value type. -/
structure Dataset : Type where
  x : List ℚ
  y : List ℚ
  qvals : QStat → ℕ → Option ℚ
  jvals : JStat → ℕ → Option JVal

/-- `new Allan.Dataset(name)`: empty sample arrays, empty cache. -/
def Dataset.empty : Dataset :=
  { x := [], y := [], qvals := fun _ _ => none, jvals := fun _ _ => none }

/-- Write `values[stat][m] = v` into the rational part of the cache. -/
def updQ (f : QStat → ℕ → Option ℚ) (stat : QStat) (m : ℕ) (v : ℚ) :
    QStat → ℕ → Option ℚ :=
  fun s k => if s = stat ∧ k = m then some v else f s k

/-- Write `values[stat][m] = v` into the JavaScript-number part of the
cache. -/
def updJ (f : JStat → ℕ → Option JVal) (stat : JStat) (m : ℕ) (v : JVal) :
    JStat → ℕ → Option JVal :=
  fun s k => if s = stat ∧ k = m then some v else f s k

/-- The shared getter pattern of the source (rational statistics): if
`values[stat][m]` is undefined, compute and store it; return the cached
value. -/
def qGet (compute : Dataset → ℚ) (stat : QStat) (m : ℕ) (ds : Dataset) :
    ℚ × Dataset :=
  match ds.qvals stat m with
  | some v => (v, ds)
  | none =>
    let v := compute ds
    (v, { ds with qvals := updQ ds.qvals stat m v })

/-- The shared getter pattern of the source (JavaScript-number
statistics). -/
def jGet (compute : Dataset → JVal) (stat : JStat) (m : ℕ) (ds : Dataset) :
    JVal × Dataset :=
  match ds.jvals stat m with
  | some v => (v, ds)
  | none =>
    let v := compute ds
    (v, { ds with jvals := updJ ds.jvals stat m v })

/-- `getPhaseAvg` (allan.js lines 258-271). -/
def getPhaseAvgS (m0 : ℕ) (ds : Dataset) : JVal × Dataset :=
  let m := orOne m0
  jGet (fun ds => windowAvg ds.x m) .xavg m ds

/-- `getFreqAvg` (allan.js lines 279-292). -/
def getFreqAvgS (m0 : ℕ) (ds : Dataset) : JVal × Dataset :=
  let m := orOne m0
  jGet (fun ds => windowAvg ds.y m) .yavg m ds

/-- `getPhaseMax` (allan.js lines 300-312). -/
def getPhaseMaxS (m0 : ℕ) (ds : Dataset) : JVal × Dataset :=
  let m := orOne m0
  jGet (fun ds => windowMax ds.x m) .xmax m ds

/-- `getFreqMax` (allan.js lines 320-332). -/
def getFreqMaxS (m0 : ℕ) (ds : Dataset) : JVal × Dataset :=
  let m := orOne m0
  jGet (fun ds => windowMax ds.y m) .ymax m ds

/-- `getPhaseMin` (allan.js lines 340-352). -/
def getPhaseMinS (m0 : ℕ) (ds : Dataset) : JVal × Dataset :=
  let m := orOne m0
  jGet (fun ds => windowMin ds.x m) .xmin m ds

/-- `getFreqMin` (allan.js lines 360-372). -/
def getFreqMinS (m0 : ℕ) (ds : Dataset) : JVal × Dataset :=
  let m := orOne m0
  jGet (fun ds => windowMin ds.y m) .ymin m ds

/-- `getStdev` (allan.js lines 542-558): on a cache miss it first calls
`getFreqAvg(m)` (which may itself write `values.yavg[m]`), then computes
from the returned average. -/
def getStdevS (sq : ℚ → ℚ) (m0 : ℕ) (ds : Dataset) : JVal × Dataset :=
  let m := orOne m0
  match ds.jvals .stdev m with
  | some v => (v, ds)
  | none =>
    let p := getFreqAvgS m ds
    let v := stdevBody sq p.2.y m p.1
    (v, { p.2 with jvals := updJ p.2.jvals .stdev m v })

/-- `getAdev` (allan.js lines 572-587). -/
def getAdevS (sq : ℚ → ℚ) (m0 : ℕ) (ds : Dataset) : ℚ × Dataset :=
  let m := orOne m0
  qGet (fun ds => adev sq ds.x m) .adev m ds

/-- `getOadev` (allan.js lines 601-616). -/
def getOadevS (sq : ℚ → ℚ) (m0 : ℕ) (ds : Dataset) : ℚ × Dataset :=
  let m := orOne m0
  qGet (fun ds => oadev sq ds.x m) .oadev m ds

/-- `getMdev` (allan.js lines 632-653). -/
def getMdevS (sq : ℚ → ℚ) (m0 : ℕ) (ds : Dataset) : ℚ × Dataset :=
  let m := orOne m0
  qGet (fun ds => mdev sq ds.x m) .mdev m ds

/-- `getTdev` (allan.js lines 665-675): on a cache miss it calls
`getMdev(m)` (which may write `values.mdev[m]`) and stores
`dev * m / sqrt(3)`. -/
def getTdevS (sq : ℚ → ℚ) (m0 : ℕ) (ds : Dataset) : ℚ × Dataset :=
  let m := orOne m0
  match ds.qvals .tdev m with
  | some v => (v, ds)
  | none =>
    let p := getMdevS sq m ds
    let v := p.1 * (m : ℚ) / sq 3
    (v, { p.2 with qvals := updQ p.2.qvals .tdev m v })

/-- `getHdev` (allan.js lines 689-704). -/
def getHdevS (sq : ℚ → ℚ) (m0 : ℕ) (ds : Dataset) : ℚ × Dataset :=
  let m := orOne m0
  qGet (fun ds => hdev sq ds.x m) .hdev m ds

/-- `getOhdev` (allan.js lines 718-733). -/
def getOhdevS (sq : ℚ → ℚ) (m0 : ℕ) (ds : Dataset) : ℚ × Dataset :=
  let m := orOne m0
  qGet (fun ds => ohdev sq ds.x m) .ohdev m ds

/-- `getTotdev` (allan.js lines 747-773). -/
def getTotdevS (sq : ℚ → ℚ) (m0 : ℕ) (ds : Dataset) : ℚ × Dataset :=
  let m := orOne m0
  qGet (fun ds => totdev sq ds.x m) .totdev m ds

/-- `getMtotdev` (allan.js lines 787-841): the cache key is the coerced
`m`, but the computation (through `half`) depends on the original
argument `m0`. -/
def getMtotdevS (sq : ℚ → ℚ) (m0 : ℕ) (ds : Dataset) : ℚ × Dataset :=
  let m := orOne m0
  qGet (fun ds => mtotdev sq ds.x m0) .mtotdev m ds

/-- `getTtotdev` (allan.js lines 853-863): on a cache miss it calls
`getMtotdev(m)` with the already-coerced `m` and stores
`dev * m / sqrt(3)`. -/
def getTtotdevS (sq : ℚ → ℚ) (m0 : ℕ) (ds : Dataset) : ℚ × Dataset :=
  let m := orOne m0
  match ds.qvals .ttotdev m with
  | some v => (v, ds)
  | none =>
    let p := getMtotdevS sq m ds
    let v := p.1 * (m : ℚ) / sq 3
    (v, { p.2 with qvals := updQ p.2.qvals .ttotdev m v })

/-- `getHtotdev` (allan.js lines 877-929): cache key coerced, computation
(through `half`) from the original argument. -/
def getHtotdevS (sq : ℚ → ℚ) (m0 : ℕ) (ds : Dataset) : ℚ × Dataset :=
  let m := orOne m0
  qGet (fun ds => htotdev sq ds.y m0) .htotdev m ds

/-- `loadPhaseFromArray` (allan.js lines 129-132): overwrite `x`, derive
`y = phaseToFreq(phase)` (the `m` argument is omitted in the source, so
the coercion sees a falsy value, encoded here as `0`); the memoization
table `values` is left untouched. -/
def loadPhaseFromArrayS (phase : List ℚ) (ds : Dataset) : Dataset :=
  { ds with x := phase, y := phaseToFreq phase 0 }

/-- `loadFreqFromArray` (allan.js lines 170-173): overwrite `y`, derive
`x = freqToPhase(freq)`; the memoization table `values` is left
untouched. -/
def loadFreqFromArrayS (freq : List ℚ) (ds : Dataset) : Dataset :=
  { ds with y := freq, x := freqToPhase freq 0 }

/-- One public getter invocation on a dataset (estimators and windowed
statistics), with its averaging-factor argument. -/
inductive GetOp : Type
  | phaseAvg (m : ℕ) | phaseMax (m : ℕ) | phaseMin (m : ℕ)
  | freqAvg (m : ℕ) | freqMax (m : ℕ) | freqMin (m : ℕ)
  | stdevOp (m : ℕ)
  | adevOp (m : ℕ) | oadevOp (m : ℕ) | mdevOp (m : ℕ) | tdevOp (m : ℕ)
  | hdevOp (m : ℕ) | ohdevOp (m : ℕ) | totdevOp (m : ℕ)
  | mtotdevOp (m : ℕ) | ttotdevOp (m : ℕ) | htotdevOp (m : ℕ)

/-- The state effect of one getter invocation. -/
def runGet (sq : ℚ → ℚ) : GetOp → Dataset → Dataset
  | .phaseAvg m, ds => (getPhaseAvgS m ds).2
  | .phaseMax m, ds => (getPhaseMaxS m ds).2
  | .phaseMin m, ds => (getPhaseMinS m ds).2
  | .freqAvg m, ds => (getFreqAvgS m ds).2
  | .freqMax m, ds => (getFreqMaxS m ds).2
  | .freqMin m, ds => (getFreqMinS m ds).2
  | .stdevOp m, ds => (getStdevS sq m ds).2
  | .adevOp m, ds => (getAdevS sq m ds).2
  | .oadevOp m, ds => (getOadevS sq m ds).2
  | .mdevOp m, ds => (getMdevS sq m ds).2
  | .tdevOp m, ds => (getTdevS sq m ds).2
  | .hdevOp m, ds => (getHdevS sq m ds).2
  | .ohdevOp m, ds => (getOhdevS sq m ds).2
  | .totdevOp m, ds => (getTotdevS sq m ds).2
  | .mtotdevOp m, ds => (getMtotdevS sq m ds).2
  | .ttotdevOp m, ds => (getTtotdevS sq m ds).2
  | .htotdevOp m, ds => (getHtotdevS sq m ds).2

/-- The rational cache entries a getter may write: its own entry, plus
the entry of the statistic it delegates to (`getTdev` calls `getMdev`,
`getTtotdev` calls `getMtotdev`). -/
def touchedQ : GetOp → List (QStat × ℕ)
  | .adevOp m => [(.adev, orOne m)]
  | .oadevOp m => [(.oadev, orOne m)]
  | .mdevOp m => [(.mdev, orOne m)]
  | .tdevOp m => [(.tdev, orOne m), (.mdev, orOne m)]
  | .hdevOp m => [(.hdev, orOne m)]
  | .ohdevOp m => [(.ohdev, orOne m)]
  | .totdevOp m => [(.totdev, orOne m)]
  | .mtotdevOp m => [(.mtotdev, orOne m)]
  | .ttotdevOp m => [(.ttotdev, orOne m), (.mtotdev, orOne m)]
  | .htotdevOp m => [(.htotdev, orOne m)]
  | _ => []

/-- The JavaScript-number cache entries a getter may write (`getStdev`
calls `getFreqAvg`, which may write `values.yavg[m]`). -/
def touchedJ : GetOp → List (JStat × ℕ)
  | .phaseAvg m => [(.xavg, orOne m)]
  | .phaseMax m => [(.xmax, orOne m)]
  | .phaseMin m => [(.xmin, orOne m)]
  | .freqAvg m => [(.yavg, orOne m)]
  | .freqMax m => [(.ymax, orOne m)]
  | .freqMin m => [(.ymin, orOne m)]
  | .stdevOp m => [(.stdev, orOne m), (.yavg, orOne m)]
  | _ => []

/-- First load of the reload scenario: phase data `[0,1,2,3,4]` (a ramp
whose ADEV term count is 3, so `getAdev(1)` caches `0`). -/
def staleDemo1 : Dataset := loadPhaseFromArrayS [0, 1, 2, 3, 4] Dataset.empty

/-- After querying `getAdev(1)`: the value `0` is cached. -/
def staleDemo2 : Dataset := (getAdevS id 1 staleDemo1).2

/-- Reload with different phase data `[0,1,0,1,0,1,0,1]` (fresh ADEV 2). -/
def staleDemo3 : Dataset :=
  loadPhaseFromArrayS [0, 1, 0, 1, 0, 1, 0, 1] staleDemo2

theorem freqToPhaseGo_length (m : ℕ) (acc : ℚ) (y : List ℚ) :
    (freqToPhaseGo m acc y).length = y.length + 1 := by
  induction y generalizing acc with
  | nil => rfl
  | cons a t ih => simp [freqToPhaseGo, ih]

theorem freqToPhase_length (y : List ℚ) (m0 : ℕ) :
    (freqToPhase y m0).length = y.length + 1 :=
  freqToPhaseGo_length _ _ _

theorem freqToPhaseGo_getD (m : ℕ) (acc : ℚ) (y : List ℚ) (i : ℕ)
    (hi : i < y.length) :
    (freqToPhaseGo m acc y).getD (i + 1) 0 =
      (freqToPhaseGo m acc y).getD i 0 + y.getD i 0 * m := by
  induction y generalizing acc i with
  | nil => simp at hi
  | cons a t ih =>
    cases i with
    | zero => cases t <;> simp [freqToPhaseGo]
    | succ j =>
      have hj : j < t.length := by simpa using hi
      simpa [freqToPhaseGo] using ih (acc + a * m) j hj

theorem freqToPhaseGo_getD_zero (m : ℕ) (acc : ℚ) (y : List ℚ) :
    (freqToPhaseGo m acc y).getD 0 0 = acc := by
  cases y <;> rfl

theorem getD_range_map (n i : ℕ) (f : ℕ → ℚ) (d : ℚ) :
    ((List.range n).map f).getD i d = if i < n then f i else d := by
  rcases lt_or_ge i n with h | h
  · simp [List.getD_eq_getElem?_getD, List.getElem?_map, List.getElem?_range, h]
  · rw [if_neg (not_lt.mpr h), List.getD_eq_default]
    simpa using h

theorem map_getD_range (l : List ℚ) (d : ℚ) :
    (List.range l.length).map (fun i => l.getD i d) = l := by
  induction l with
  | nil => rfl
  | cons a t ih =>
    have h1 : List.range (a :: t).length = 0 :: (List.range t.length).map Nat.succ := by
      simp [List.range_succ_eq_map]
    rw [h1]
    simp only [List.map_cons, List.map_map]
    have h2 : ((fun i => (a :: t).getD i d) ∘ Nat.succ) = fun i => t.getD i d := by
      funext i
      simp
    rw [List.getD_cons_zero, h2, ih]

theorem orOne_pos (m : ℕ) : 0 < orOne m := by
  unfold orOne
  split <;> omega

theorem orOne_eq_of_pos {m : ℕ} (h : 1 ≤ m) : orOne m = m := by
  unfold orOne
  rw [if_neg (by omega)]

theorem orOne_cast_ne_zero (m : ℕ) : ((orOne m : ℕ) : ℚ) ≠ 0 := by
  have := orOne_pos m
  positivity

theorem phaseToFreq_freqToPhase (y : List ℚ) (m : ℕ) :
    phaseToFreq (freqToPhase y m) m = y := by
  unfold phaseToFreq
  rw [freqToPhase_length]
  simp only [Nat.add_sub_cancel]
  have step : ∀ i ∈ List.range y.length,
      (xg (freqToPhase y m) (i + 1) - xg (freqToPhase y m) i) / (orOne m : ℚ) =
        y.getD i 0 := by
    intro i hi
    have hilt : i < y.length := List.mem_range.mp hi
    have h := freqToPhaseGo_getD (orOne m) 0 y i hilt
    unfold freqToPhase
    show ((freqToPhaseGo (orOne m) 0 y).getD (i + 1) 0 -
        (freqToPhaseGo (orOne m) 0 y).getD i 0) / (orOne m : ℚ) = y.getD i 0
    rw [h, add_sub_cancel_left, mul_div_cancel_right₀ _ (orOne_cast_ne_zero m)]
  rw [List.map_congr_left step, map_getD_range]

theorem freqToPhase_phaseToFreq (x : List ℚ) (m : ℕ) (hx : x ≠ [])
    (h0 : x.getD 0 0 = 0) :
    freqToPhase (phaseToFreq x m) m = x := by
  have hlen : 1 ≤ x.length := by
    cases x with
    | nil => exact absurd rfl hx
    | cons a t => simp
  have hYlen : (phaseToFreq x m).length = x.length - 1 := by
    unfold phaseToFreq
    simp
  have key : ∀ i, i < x.length →
      (freqToPhase (phaseToFreq x m) m).getD i 0 = x.getD i 0 := by
    intro i
    induction i with
    | zero =>
      intro _
      unfold freqToPhase
      rw [freqToPhaseGo_getD_zero, h0]
    | succ j ih =>
      intro hj
      have hjx : j < x.length := by omega
      have hjY : j < (phaseToFreq x m).length := by omega
      unfold freqToPhase at ih ⊢
      rw [freqToPhaseGo_getD (orOne m) 0 _ j hjY, ih hjx]
      have hY : (phaseToFreq x m).getD j 0 =
          (xg x (j + 1) - xg x j) / (orOne m : ℚ) := by
        unfold phaseToFreq
        rw [getD_range_map]
        rw [if_pos (by omega)]
      rw [hY, div_mul_cancel₀ _ (orOne_cast_ne_zero m)]
      show x.getD j 0 + (x.getD (j+1) 0 - x.getD j 0) = x.getD (j+1) 0
      ring
  have hlen2 : (freqToPhase (phaseToFreq x m) m).length = x.length := by
    rw [freqToPhase_length, hYlen]
    omega
  apply List.ext_getElem hlen2
  intro i h1 h2
  have := key i h2
  rwa [List.getD_eq_getElem _ _ h1, List.getD_eq_getElem _ _ h2] at this

theorem foldl_sum_count (f : ℕ → ℚ) (l : List ℕ) (s0 : ℚ) (n0 : ℕ) :
    l.foldl (fun (p : ℚ × ℕ) i => (p.1 + f i, p.2 + 1)) (s0, n0) =
      (s0 + (l.map f).sum, n0 + l.length) := by
  induction l generalizing s0 n0 with
  | nil => simp
  | cons a t ih =>
    simp only [List.foldl_cons, List.map_cons, List.sum_cons, List.length_cons]
    rw [ih, Prod.mk.injEq]
    constructor
    · ring
    · omega

theorem foldl_runsum_count (g : ℕ → ℚ) (l : List ℕ) (v s : ℚ) (n : ℕ) :
    (l.foldl (fun (p : ℚ × ℚ × ℕ) i =>
      let w := p.1 + g i
      (w, p.2.1 + w * w, p.2.2 + 1)) (v, s, n)).2.2 = n + l.length := by
  induction l generalizing v s n with
  | nil => simp
  | cons a t ih =>
    simp only [List.foldl_cons, List.length_cons]
    rw [ih]
    omega

/-- C1: for a phase array `x` and any `m >= 1`, `getAdev(m)` accumulates
`v = x[i+2m] - 2 x[i+m] + x[i]` with `i` advancing by 1 over every
`0 <= i < N - 2m`, counts the terms as `n`, and returns
`sqrt(sum / (2n)) / m` when `n > 3` and `0` otherwise. -/
theorem claim1_adev_formula (sq : ℚ → ℚ) (x : List ℚ) (m : ℕ) (hm : 1 ≤ m) :
    adev sq x m = adevSpec sq x m := by
  unfold adev adevSpec
  dsimp only
  rw [orOne_eq_of_pos hm, foldl_sum_count]
  simp only [List.length_range, zero_add, pow_two, secondDiff, MIN_SAMPLES, gt_iff_lt]

/-- Witness for C1 at a concrete input. -/
theorem claim1_adev_formula_witness :
    adev id [0, 1, 0, 1, 0, 1, 0, 1] 1 = adevSpec id [0, 1, 0, 1, 0, 1, 0, 1] 1 :=
  claim1_adev_formula id [0, 1, 0, 1, 0, 1, 0, 1] 1 (by decide)

/-- C2: every deviation estimator returns exactly `0` (no error, no square
root) whenever its valid accumulation-term count is at most
`MIN_SAMPLES` (= 3). -/
theorem claim2_min_samples_gate :
    (∀ (sq : ℚ → ℚ) (x : List ℚ) (m : ℕ), 1 ≤ m → adevN x m ≤ MIN_SAMPLES →
      adev sq x m = 0) ∧
    (∀ (sq : ℚ → ℚ) (x : List ℚ) (m : ℕ), 1 ≤ m → oadevN x m ≤ MIN_SAMPLES →
      oadev sq x m = 0) ∧
    (∀ (sq : ℚ → ℚ) (x : List ℚ) (m : ℕ), 1 ≤ m → mdevN x m ≤ MIN_SAMPLES →
      mdev sq x m = 0) ∧
    (∀ (sq : ℚ → ℚ) (x : List ℚ) (m : ℕ), 1 ≤ m → hdevN x m ≤ MIN_SAMPLES →
      hdev sq x m = 0) ∧
    (∀ (sq : ℚ → ℚ) (x : List ℚ) (m : ℕ), 1 ≤ m → ohdevN x m ≤ MIN_SAMPLES →
      ohdev sq x m = 0) ∧
    (∀ (sq : ℚ → ℚ) (x : List ℚ) (m : ℕ), 1 ≤ m → totdevN x m ≤ MIN_SAMPLES →
      totdev sq x m = 0) ∧
    (∀ (sq : ℚ → ℚ) (x : List ℚ) (m : ℕ), 1 ≤ m → mtotdevN x m ≤ MIN_SAMPLES →
      mtotdev sq x m = 0) ∧
    (∀ (sq : ℚ → ℚ) (y : List ℚ) (m : ℕ), 1 ≤ m → htotdevN y m ≤ MIN_SAMPLES →
      htotdev sq y m = 0) := by
  refine ⟨?_, ?_, ?_, ?_, ?_, ?_, ?_, ?_⟩
  · intro sq x m hm hn
    unfold adev
    dsimp only
    rw [orOne_eq_of_pos hm, foldl_sum_count, if_neg]
    unfold adevN at hn
    unfold MIN_SAMPLES at hn ⊢
    simp only [List.length_range, zero_add, gt_iff_lt]
    omega
  · intro sq x m hm hn
    unfold oadev
    dsimp only
    rw [orOne_eq_of_pos hm, foldl_sum_count, if_neg]
    unfold oadevN at hn
    unfold MIN_SAMPLES at hn ⊢
    unfold stepIdx
    simp only [List.length_map, List.length_range', zero_add, gt_iff_lt]
    omega
  · intro sq x m hm hn
    unfold mdev
    dsimp only
    rw [orOne_eq_of_pos hm, if_neg]
    rw [foldl_runsum_count]
    unfold mdevN at hn
    unfold MIN_SAMPLES at hn ⊢
    simp only [List.length_range, gt_iff_lt]
    omega
  · intro sq x m hm hn
    unfold hdev
    dsimp only
    rw [orOne_eq_of_pos hm, foldl_sum_count, if_neg]
    unfold hdevN at hn
    unfold MIN_SAMPLES at hn ⊢
    simp only [List.length_range, zero_add, gt_iff_lt]
    omega
  · intro sq x m hm hn
    unfold ohdev
    dsimp only
    rw [orOne_eq_of_pos hm, foldl_sum_count, if_neg]
    unfold ohdevN at hn
    unfold MIN_SAMPLES at hn ⊢
    unfold stepIdx
    simp only [List.length_map, List.length_range', zero_add, gt_iff_lt]
    omega
  · intro sq x m hm hn
    unfold totdev
    dsimp only
    rw [orOne_eq_of_pos hm]
    unfold totdevN at hn
    by_cases hg : ((x.length - 2 : ℕ) : ℤ) + x.length + m - 1 ≤ 3 * x.length - 4
    · rw [if_pos hg] at hn ⊢
      rw [if_neg]
      unfold MIN_SAMPLES at hn ⊢
      simp only [gt_iff_lt]
      omega
    · rw [if_neg hg] at hn ⊢
      rw [if_neg]
      unfold MIN_SAMPLES
      simp
  · intro sq x m hm hn
    unfold mtotdev
    dsimp only
    rw [orOne_eq_of_pos hm, if_neg]
    unfold mtotdevN at hn
    unfold MIN_SAMPLES at hn ⊢
    simp only [gt_iff_lt]
    omega
  · intro sq y m hm hn
    unfold htotdev
    dsimp only
    rw [orOne_eq_of_pos hm, if_neg]
    unfold htotdevN at hn
    unfold MIN_SAMPLES at hn ⊢
    simp only [gt_iff_lt]
    omega

/-- Witness for C2 at a concrete input (empty dataset, `m = 1`). -/
theorem claim2_min_samples_gate_witness :
    adev id [] 1 = 0 ∧ oadev id [] 1 = 0 ∧ mdev id [] 1 = 0 ∧
    hdev id [] 1 = 0 ∧ ohdev id [] 1 = 0 ∧ totdev id [] 1 = 0 ∧
    mtotdev id [] 1 = 0 ∧ htotdev id [] 1 = 0 :=
  ⟨claim2_min_samples_gate.1 id [] 1 (by decide) (by decide),
   claim2_min_samples_gate.2.1 id [] 1 (by decide) (by decide),
   claim2_min_samples_gate.2.2.1 id [] 1 (by decide) (by decide),
   claim2_min_samples_gate.2.2.2.1 id [] 1 (by decide) (by decide),
   claim2_min_samples_gate.2.2.2.2.1 id [] 1 (by decide) (by decide),
   claim2_min_samples_gate.2.2.2.2.2.1 id [] 1 (by decide) (by decide),
   claim2_min_samples_gate.2.2.2.2.2.2.1 id [] 1 (by decide) (by decide),
   claim2_min_samples_gate.2.2.2.2.2.2.2 id [] 1 (by decide) (by decide)⟩

/-- C5: `getTdev(m)` equals `getMdev(m) * m / sqrt(3)` exactly, as a
definitional identity (TDEV is computed from the MDEV result). -/
theorem claim5_tdev_from_mdev (sq : ℚ → ℚ) (x : List ℚ) (m : ℕ) (hm : 1 ≤ m) :
    tdev sq x m = mdev sq x m * m / sq 3 := by
  unfold tdev
  rw [orOne_eq_of_pos hm]

/-- Witness for C5 at a concrete input. -/
theorem claim5_tdev_from_mdev_witness :
    tdev id [0, 1, 2, 3] 1 = mdev id [0, 1, 2, 3] 1 * 1 / id 3 :=
  claim5_tdev_from_mdev id [0, 1, 2, 3] 1 (by decide)

theorem jsum_map {α : Type} (f : α → JVal) (l : List α) :
    jsum (l.map f) = l.foldl (fun s x => jadd s (f x)) (.num 0) := by
  rw [jsum, List.foldl_map]

theorem blockMean_eq_arrayAvg (a : List ℚ) (i m : ℕ) :
    blockMean a i m = arrayAvg i m a := by
  unfold blockMean arrayAvg
  rw [jsum_map]

/-- C6: the windowed average statistic (`getPhaseAvg` on the phase array,
`getFreqAvg` on the frequency array — both are `windowAvg` over the
respective sample array) equals the sum of the block averages
`mean(a[i..i+m-1])` at `i = 0, m, 2m, ...` for `i < len`, multiplied by
`m` and divided by `len`: the weighted formula `sum * m / len`. -/
theorem claim6_window_avg_formula (a : List ℚ) (m : ℕ) (hm : 1 ≤ m)
    (_hlen : 1 ≤ a.length) :
    windowAvg a m =
      jdiv (jmul (jsum ((stepIdx a.length m).map (fun i => blockMean a i m)))
        (.num m)) (.num a.length) := by
  unfold windowAvg
  dsimp only
  rw [orOne_eq_of_pos hm, jsum_map]
  simp only [blockMean_eq_arrayAvg]

/-- Witness for C6 at a concrete input. -/
theorem claim6_window_avg_formula_witness :
    windowAvg [1, 2, 3] 2 =
      jdiv (jmul (jsum ((stepIdx (List.length [(1:ℚ), 2, 3]) 2).map
        (fun i => blockMean [1, 2, 3] i 2))) (.num 2))
        (.num (List.length [(1:ℚ), 2, 3])) :=
  claim6_window_avg_formula [1, 2, 3] 2 (by decide) (by decide)

theorem jadd_nan_right (x : JVal) : jadd x .nan = .nan := by
  cases x <;> rfl

theorem jadd_nan_left (x : JVal) : jadd .nan x = .nan := by
  cases x <;> rfl

theorem jget_oob (a : List ℚ) (j : ℕ) (h : a.length ≤ j) : jget a j = .nan := by
  unfold jget
  rw [List.get?_eq_none.mpr h]

theorem foldl_jadd_from_nan (f : ℕ → JVal) (l : List ℕ) :
    l.foldl (fun s j => jadd s (f j)) .nan = .nan := by
  induction l with
  | nil => rfl
  | cons b t ih =>
    rw [List.foldl_cons, jadd_nan_left]
    exact ih

theorem foldl_jadd_jget_oob (a : List ℚ) (i : ℕ) (l : List ℕ) (init : JVal)
    (j : ℕ) (hj : j ∈ l) (hoob : a.length ≤ i + j) :
    l.foldl (fun s j => jadd s (jget a (i + j))) init = .nan := by
  induction l generalizing init with
  | nil => cases hj
  | cons b t ih =>
    rcases List.mem_cons.mp hj with rfl | hmem
    · rw [List.foldl_cons, jget_oob a (i + j) hoob, jadd_nan_right]
      exact foldl_jadd_from_nan _ t
    · rw [List.foldl_cons]
      exact ih _ hmem

theorem arrayAvg_oob (a : List ℚ) (m : ℕ) (h : a.length < m) :
    arrayAvg 0 m a = .nan := by
  unfold arrayAvg
  rw [foldl_jadd_jget_oob a 0 (List.range m) (.num 0) a.length
    (List.mem_range.mpr h) (by omega)]
  rfl

theorem stepIdx_singleton {len m : ℕ} (h1 : 1 ≤ len) (h2 : len < m) :
    stepIdx len m = [0] := by
  unfold stepIdx
  have : (len + m - 1) / m = 1 := Nat.div_eq_of_lt_le (by omega) (by omega)
  rw [this]
  rfl

theorem windowAvg_nan_of_oob (a : List ℚ) (m : ℕ) (h1 : 1 ≤ a.length)
    (h2 : a.length < m) : windowAvg a m = .nan := by
  unfold windowAvg
  dsimp only
  rw [orOne_eq_of_pos (by omega), stepIdx_singleton h1 h2]
  rw [List.foldl_cons, List.foldl_nil, arrayAvg_oob a m h2, jadd_nan_right]
  rfl

theorem windowMax_ninf_of_oob (a : List ℚ) (m : ℕ) (h1 : 1 ≤ a.length)
    (h2 : a.length < m) : windowMax a m = .ninf := by
  unfold windowMax
  dsimp only
  rw [orOne_eq_of_pos (by omega), stepIdx_singleton h1 h2]
  rw [List.foldl_cons, List.foldl_nil]
  rw [arrayAvg_oob a m h2]
  rfl

theorem windowMin_inf_of_oob (a : List ℚ) (m : ℕ) (h1 : 1 ≤ a.length)
    (h2 : a.length < m) : windowMin a m = .inf := by
  unfold windowMin
  dsimp only
  rw [orOne_eq_of_pos (by omega), stepIdx_singleton h1 h2]
  rw [List.foldl_cons, List.foldl_nil]
  rw [arrayAvg_oob a m h2]
  rfl

/-- C8 as amended: when `m` exceeds the length of a non-empty sample
array, the step-by-`m` loops of the windowed statistics run over the
single index `0` (one iteration, not zero), the block average reads past
the end of the array, and the average degenerates to `NaN` while the max
and min stay at their `-Infinity` / `Infinity` sentinels; no error is
raised. -/
theorem claim8_oob_degenerate (a : List ℚ) (m : ℕ) (ha : a ≠ [])
    (hm : a.length < m) :
    stepIdx a.length m = [0] ∧ windowAvg a m = .nan ∧
    windowMax a m = .ninf ∧ windowMin a m = .inf := by
  have h1 : 1 ≤ a.length := List.length_pos.mpr ha
  exact ⟨stepIdx_singleton h1 hm, windowAvg_nan_of_oob a m h1 hm,
    windowMax_ninf_of_oob a m h1 hm, windowMin_inf_of_oob a m h1 hm⟩

/-- Witness for the amended C8 at a concrete input. -/
theorem claim8_oob_degenerate_witness :
    stepIdx (List.length [(1:ℚ)]) 2 = [0] ∧ windowAvg [(1:ℚ)] 2 = .nan ∧
    windowMax [(1:ℚ)] 2 = .ninf ∧ windowMin [(1:ℚ)] 2 = .inf :=
  claim8_oob_degenerate [(1:ℚ)] 2 (by decide) (by decide)

/-- C8 as stated is false: with the one-element array `[1]` and `m = 2`
(so `m` exceeds the array length) the step-by-`m` loop of the windowed
statistics runs one iteration, not zero — its index list is `[0]`, of
length 1. -/
theorem claim8_counterexample :
    (stepIdx (List.length [(1:ℚ)]) 2).length ≠ 0 ∧
      windowAvg [(1:ℚ)] 2 = .nan := by
  refine ⟨?_, windowAvg_nan_of_oob [(1:ℚ)] 2 (by decide) (by decide)⟩
  rw [stepIdx_singleton (by decide) (by decide)]
  decide

theorem foldl_prepend_append {α : Type} (g h : ℕ → α) (l : List ℕ)
    (init : List α) :
    l.foldl (fun nx k => (g k :: nx) ++ [h k]) init =
      (l.map g).reverse ++ init ++ l.map h := by
  induction l generalizing init with
  | nil => simp
  | cons a t ih =>
    rw [List.foldl_cons, ih]
    simp [List.append_assoc]

theorem totdevNx_closed (x : List ℚ) :
    totdevNx x =
      ((List.range (x.length - 2)).map (fun k => 2 * xg x 0 - xg x (k + 1))).reverse
        ++ x ++
      (List.range (x.length - 2)).map
        (fun k => 2 * xg x (x.length - 1) - xg x (x.length - 1 - (k + 1))) := by
  unfold totdevNx
  exact foldl_prepend_append _ _ _ _

theorem rev_map_range_getD (g : ℕ → ℚ) (e t : ℕ) (ht : t < e) (d : ℚ) :
    (((List.range e).map g).reverse).getD t d = g (e - 1 - t) := by
  rw [List.getD_eq_getElem _ _
    (by simpa using ht : t < (((List.range e).map g).reverse).length)]
  rw [List.getElem_reverse]
  simp

theorem zg_totdevNx (x : List ℚ) (c : ℤ) (hlen : 2 ≤ x.length)
    (hlo : -((x.length - 2 : ℕ) : ℤ) ≤ c)
    (hhi : c ≤ (x.length : ℤ) - 1 + ((x.length - 2 : ℕ) : ℤ)) :
    zg (totdevNx x) (((x.length - 2 : ℕ) : ℤ) + c) = mirrorExt x c := by
  set len := x.length with hlendef
  set e := len - 2 with hedef
  have hp : (0 : ℤ) ≤ (e : ℤ) + c := by omega
  rw [zg, if_neg (by omega)]
  rw [totdevNx_closed]
  set A := ((List.range e).map (fun k => 2 * xg x 0 - xg x (k + 1))).reverse with hA
  set C := (List.range e).map
    (fun k => 2 * xg x (len - 1) - xg x (len - 1 - (k + 1))) with hC
  have hAlen : A.length = e := by simp [hA]
  have hABlen : (A ++ x).length = e + len := by simp [hA, hlendef]
  set t := ((e : ℤ) + c).toNat with htdef
  have htc : (t : ℤ) = (e : ℤ) + c := by omega
  unfold xg
  rcases lt_trichotomy c 0 with hc | hc | hc
  · have ht : t < e := by omega
    rw [List.getD_append _ _ _ _ (by omega : t < (A ++ x).length)]
    rw [List.getD_append _ _ _ _ (by omega : t < A.length)]
    rw [hA, rev_map_range_getD _ _ _ ht]
    rw [mirrorExt, if_pos hc]
    have harg : e - 1 - t + 1 = (-c).toNat := by omega
    rw [harg]
  · have ht : t = e := by omega
    rw [List.getD_append _ _ _ _ (by omega : t < (A ++ x).length)]
    rw [List.getD_append_right _ _ _ _ (by omega : A.length ≤ t)]
    rw [mirrorExt, if_neg (by omega), if_pos (by omega)]
    rw [hAlen]
    have : t - e = c.toNat := by omega
    rw [this]
    rfl
  · rcases lt_or_ge c (len : ℤ) with hcl | hcl
    · have ht : e ≤ t ∧ t < e + len := by omega
      rw [List.getD_append _ _ _ _ (by omega : t < (A ++ x).length)]
      rw [List.getD_append_right _ _ _ _ (by omega : A.length ≤ t)]
      rw [mirrorExt, if_neg (by omega), if_pos (by omega)]
      rw [hAlen]
      have : t - e = c.toNat := by omega
      rw [this]
      rfl
    · have ht : e + len ≤ t := by omega
      rw [List.getD_append_right _ _ _ _ (by omega : (A ++ x).length ≤ t)]
      rw [hABlen, hC, getD_range_map, if_pos (by omega : t - (e + len) < e)]
      rw [mirrorExt, if_neg (by omega), if_neg (by omega)]
      have : len - 1 - (t - (e + len) + 1) = (2 * (len : ℤ) - 2 - c).toNat := by
        omega
      rw [this]

/-- C7: for a phase array of length at least 2 and `m >= 1`, `getTotdev`
computes exactly the mirror-extension formula of the specification,
including the boundary guard and the `MIN_SAMPLES` gate. -/
theorem claim7_totdev_formula (sq : ℚ → ℚ) (x : List ℚ) (m : ℕ)
    (hlen : 2 ≤ x.length) (hm : 1 ≤ m) :
    totdev sq x m = totdevSpec sq x m := by
  unfold totdev totdevSpec
  dsimp only
  rw [orOne_eq_of_pos hm]
  by_cases hg : ((x.length - 2 : ℕ) : ℤ) + x.length + m - 1 ≤ 3 * x.length - 4
  · rw [if_pos hg, if_pos hg]
    have key : ∀ k ∈ List.range (x.length - 2),
        (let v := zg (totdevNx x) (((x.length - 2 : ℕ) : ℤ) + ((k : ℤ) + 1) - (m : ℤ)) -
          2 * zg (totdevNx x) (((x.length - 2 : ℕ) : ℤ) + ((k : ℤ) + 1)) +
          zg (totdevNx x) (((x.length - 2 : ℕ) : ℤ) + ((k : ℤ) + 1) + (m : ℤ))
        v * v) =
        (mirrorExt x ((k : ℤ) + 1 - m) - 2 * mirrorExt x ((k : ℤ) + 1) +
          mirrorExt x ((k : ℤ) + 1 + m)) ^ 2 := by
      intro k hk
      have hk2 : k < x.length - 2 := List.mem_range.mp hk
      dsimp only
      have e1 : ((x.length - 2 : ℕ) : ℤ) + ((k : ℤ) + 1) - (m : ℤ) =
          ((x.length - 2 : ℕ) : ℤ) + ((k : ℤ) + 1 - m) := by ring
      have e3 : ((x.length - 2 : ℕ) : ℤ) + ((k : ℤ) + 1) + (m : ℤ) =
          ((x.length - 2 : ℕ) : ℤ) + ((k : ℤ) + 1 + m) := by ring
      rw [e1, e3]
      rw [zg_totdevNx x ((k : ℤ) + 1 - m) hlen (by omega) (by omega)]
      rw [zg_totdevNx x ((k : ℤ) + 1 + m) hlen (by omega) (by omega)]
      rw [zg_totdevNx x ((k : ℤ) + 1) hlen (by omega) (by omega)]
      ring
    rw [List.map_congr_left key]
    rfl
  · rw [if_neg hg, if_neg hg]
    rfl

/-- Witness for C7 at a concrete input. -/
theorem claim7_totdev_formula_witness :
    totdev id [0, 1, 0, 1, 0, 1] 1 = totdevSpec id [0, 1, 0, 1, 0, 1] 1 :=
  claim7_totdev_formula id [0, 1, 0, 1, 0, 1] 1 (by decide) (by decide)

/-- C4: `phaseToFreq (freqToPhase y) = y` for every frequency sequence
`y`, and `freqToPhase (phaseToFreq x) = x` for every phase sequence `x`
with `x[0] = 0`; exact over the rationals (hence within floating-point
tolerance for the source). -/
theorem claim4_roundtrip :
    (∀ (y : List ℚ) (m : ℕ), phaseToFreq (freqToPhase y m) m = y) ∧
    (∀ (x : List ℚ) (m : ℕ), x ≠ [] → x.getD 0 0 = 0 →
      freqToPhase (phaseToFreq x m) m = x) :=
  ⟨phaseToFreq_freqToPhase, freqToPhase_phaseToFreq⟩

/-- Witness for C4 at concrete inputs. -/
theorem claim4_roundtrip_witness :
    phaseToFreq (freqToPhase [1, 2, 3] 1) 1 = [1, 2, 3] ∧
    freqToPhase (phaseToFreq [0, 2, 5] 1) 1 = [0, 2, 5] :=
  ⟨claim4_roundtrip.1 [1, 2, 3] 1,
   claim4_roundtrip.2 [0, 2, 5] 1 (by simp) (by norm_num)⟩

theorem updQ_ne (f : QStat → ℕ → Option ℚ) (stat : QStat) (m : ℕ) (v : ℚ)
    (s : QStat) (k : ℕ) (h : ¬(s = stat ∧ k = m)) :
    updQ f stat m v s k = f s k := by
  unfold updQ
  rw [if_neg h]

theorem updJ_ne (f : JStat → ℕ → Option JVal) (stat : JStat) (m : ℕ)
    (v : JVal) (s : JStat) (k : ℕ) (h : ¬(s = stat ∧ k = m)) :
    updJ f stat m v s k = f s k := by
  unfold updJ
  rw [if_neg h]

theorem qGet_x (c : Dataset → ℚ) (stat : QStat) (m : ℕ) (ds : Dataset) :
    ((qGet c stat m ds).2).x = ds.x := by
  unfold qGet
  cases h : ds.qvals stat m <;> simp [h]

theorem qGet_y (c : Dataset → ℚ) (stat : QStat) (m : ℕ) (ds : Dataset) :
    ((qGet c stat m ds).2).y = ds.y := by
  unfold qGet
  cases h : ds.qvals stat m <;> simp [h]

theorem qGet_jvals (c : Dataset → ℚ) (stat : QStat) (m : ℕ) (ds : Dataset) :
    ((qGet c stat m ds).2).jvals = ds.jvals := by
  unfold qGet
  cases h : ds.qvals stat m <;> simp [h]

theorem qGet_qvals_ne (c : Dataset → ℚ) (stat : QStat) (m : ℕ) (ds : Dataset)
    (s : QStat) (k : ℕ) (h : ¬(s = stat ∧ k = m)) :
    ((qGet c stat m ds).2).qvals s k = ds.qvals s k := by
  unfold qGet
  cases hc : ds.qvals stat m with
  | some v => simp [hc]
  | none => simp [hc, updQ_ne _ _ _ _ _ _ h]

theorem jGet_x (c : Dataset → JVal) (stat : JStat) (m : ℕ) (ds : Dataset) :
    ((jGet c stat m ds).2).x = ds.x := by
  unfold jGet
  cases h : ds.jvals stat m <;> simp [h]

theorem jGet_y (c : Dataset → JVal) (stat : JStat) (m : ℕ) (ds : Dataset) :
    ((jGet c stat m ds).2).y = ds.y := by
  unfold jGet
  cases h : ds.jvals stat m <;> simp [h]

theorem jGet_qvals (c : Dataset → JVal) (stat : JStat) (m : ℕ) (ds : Dataset) :
    ((jGet c stat m ds).2).qvals = ds.qvals := by
  unfold jGet
  cases h : ds.jvals stat m <;> simp [h]

theorem jGet_jvals_ne (c : Dataset → JVal) (stat : JStat) (m : ℕ)
    (ds : Dataset) (s : JStat) (k : ℕ) (h : ¬(s = stat ∧ k = m)) :
    ((jGet c stat m ds).2).jvals s k = ds.jvals s k := by
  unfold jGet
  cases hc : ds.jvals stat m with
  | some v => simp [hc]
  | none => simp [hc, updJ_ne _ _ _ _ _ _ h]

theorem orOne_idem (m : ℕ) : orOne (orOne m) = orOne m :=
  orOne_eq_of_pos (orOne_pos m)

theorem qGet_frame (c : Dataset → ℚ) (stat : QStat) (m : ℕ) (ds : Dataset) :
    ((qGet c stat m ds).2).x = ds.x ∧ ((qGet c stat m ds).2).y = ds.y ∧
    (∀ s k, (s, k) ∉ [(stat, m)] →
      ((qGet c stat m ds).2).qvals s k = ds.qvals s k) ∧
    (∀ s k, ((qGet c stat m ds).2).jvals s k = ds.jvals s k) := by
  refine ⟨qGet_x c stat m ds, qGet_y c stat m ds, ?_, ?_⟩
  · intro s k hk
    apply qGet_qvals_ne
    simp only [List.mem_singleton, Prod.mk.injEq] at hk
    exact fun hand => hk ⟨hand.1, hand.2⟩
  · intro s k
    rw [qGet_jvals]

theorem jGet_frame (c : Dataset → JVal) (stat : JStat) (m : ℕ) (ds : Dataset) :
    ((jGet c stat m ds).2).x = ds.x ∧ ((jGet c stat m ds).2).y = ds.y ∧
    (∀ s k, ((jGet c stat m ds).2).qvals s k = ds.qvals s k) ∧
    (∀ s k, (s, k) ∉ [(stat, m)] →
      ((jGet c stat m ds).2).jvals s k = ds.jvals s k) := by
  refine ⟨jGet_x c stat m ds, jGet_y c stat m ds, ?_, ?_⟩
  · intro s k
    rw [jGet_qvals]
  · intro s k hk
    apply jGet_jvals_ne
    simp only [List.mem_singleton, Prod.mk.injEq] at hk
    exact fun hand => hk ⟨hand.1, hand.2⟩

/-- C9 as amended: every getter leaves the sample arrays `x` and `y`
unchanged, and the only dataset state it may modify are the memoization
entries of its own statistic and of the statistic it delegates to
(`getTdev` writes `values.mdev[m]`, `getTtotdev` writes
`values.mtotdev[m]`, `getStdev` writes `values.yavg[m]`); in particular
`getTotdev` builds its mirror extension on a copy, never on `x`. -/
theorem claim9_getter_frame (sq : ℚ → ℚ) (op : GetOp) (ds : Dataset) :
    (runGet sq op ds).x = ds.x ∧ (runGet sq op ds).y = ds.y ∧
    (∀ s k, (s, k) ∉ touchedQ op →
      (runGet sq op ds).qvals s k = ds.qvals s k) ∧
    (∀ s k, (s, k) ∉ touchedJ op →
      (runGet sq op ds).jvals s k = ds.jvals s k) := by
  cases op with
  | phaseAvg m =>
    dsimp only [runGet, getPhaseAvgS, touchedQ, touchedJ]
    obtain ⟨h1, h2, h3, h4⟩ := jGet_frame (fun ds => windowAvg ds.x (orOne m))
      .xavg (orOne m) ds
    exact ⟨h1, h2, fun s k _ => h3 s k, h4⟩
  | phaseMax m =>
    dsimp only [runGet, getPhaseMaxS, touchedQ, touchedJ]
    obtain ⟨h1, h2, h3, h4⟩ := jGet_frame (fun ds => windowMax ds.x (orOne m))
      .xmax (orOne m) ds
    exact ⟨h1, h2, fun s k _ => h3 s k, h4⟩
  | phaseMin m =>
    dsimp only [runGet, getPhaseMinS, touchedQ, touchedJ]
    obtain ⟨h1, h2, h3, h4⟩ := jGet_frame (fun ds => windowMin ds.x (orOne m))
      .xmin (orOne m) ds
    exact ⟨h1, h2, fun s k _ => h3 s k, h4⟩
  | freqAvg m =>
    dsimp only [runGet, getFreqAvgS, touchedQ, touchedJ]
    obtain ⟨h1, h2, h3, h4⟩ := jGet_frame (fun ds => windowAvg ds.y (orOne m))
      .yavg (orOne m) ds
    exact ⟨h1, h2, fun s k _ => h3 s k, h4⟩
  | freqMax m =>
    dsimp only [runGet, getFreqMaxS, touchedQ, touchedJ]
    obtain ⟨h1, h2, h3, h4⟩ := jGet_frame (fun ds => windowMax ds.y (orOne m))
      .ymax (orOne m) ds
    exact ⟨h1, h2, fun s k _ => h3 s k, h4⟩
  | freqMin m =>
    dsimp only [runGet, getFreqMinS, touchedQ, touchedJ]
    obtain ⟨h1, h2, h3, h4⟩ := jGet_frame (fun ds => windowMin ds.y (orOne m))
      .ymin (orOne m) ds
    exact ⟨h1, h2, fun s k _ => h3 s k, h4⟩
  | stdevOp m =>
    dsimp only [runGet, getStdevS, touchedQ, touchedJ]
    cases h : ds.jvals .stdev (orOne m) with
    | some v =>
      simp [h]
    | none =>
      simp only [h]
      simp only [getFreqAvgS]
      rw [orOne_idem]
      obtain ⟨h1, h2, h3, h4⟩ := jGet_frame (fun ds => windowAvg ds.y (orOne m))
        .yavg (orOne m) ds
      refine ⟨h1, h2, fun s k _ => h3 s k, ?_⟩
      intro s k hk
      simp only [List.mem_cons, List.mem_singleton, Prod.mk.injEq] at hk
      push_neg at hk
      rw [updJ_ne _ _ _ _ _ _ (fun hand => (hk.1 hand.1) hand.2)]
      exact jGet_jvals_ne _ _ _ _ _ _ (fun hand => (hk.2.1 hand.1) hand.2)
  | adevOp m =>
    dsimp only [runGet, getAdevS, touchedQ, touchedJ]
    obtain ⟨h1, h2, h3, h4⟩ := qGet_frame (fun ds => adev sq ds.x (orOne m))
      .adev (orOne m) ds
    exact ⟨h1, h2, h3, fun s k _ => h4 s k⟩
  | oadevOp m =>
    dsimp only [runGet, getOadevS, touchedQ, touchedJ]
    obtain ⟨h1, h2, h3, h4⟩ := qGet_frame (fun ds => oadev sq ds.x (orOne m))
      .oadev (orOne m) ds
    exact ⟨h1, h2, h3, fun s k _ => h4 s k⟩
  | mdevOp m =>
    dsimp only [runGet, getMdevS, touchedQ, touchedJ]
    obtain ⟨h1, h2, h3, h4⟩ := qGet_frame (fun ds => mdev sq ds.x (orOne m))
      .mdev (orOne m) ds
    exact ⟨h1, h2, h3, fun s k _ => h4 s k⟩
  | tdevOp m =>
    dsimp only [runGet, getTdevS, touchedQ, touchedJ]
    cases h : ds.qvals .tdev (orOne m) with
    | some v =>
      simp [h]
    | none =>
      simp only [h]
      simp only [getMdevS]
      rw [orOne_idem]
      obtain ⟨h1, h2, h3, h4⟩ := qGet_frame (fun ds => mdev sq ds.x (orOne m))
        .mdev (orOne m) ds
      refine ⟨h1, h2, ?_, fun s k _ => h4 s k⟩
      intro s k hk
      simp only [List.mem_cons, List.mem_singleton, Prod.mk.injEq] at hk
      push_neg at hk
      rw [updQ_ne _ _ _ _ _ _ (fun hand => (hk.1 hand.1) hand.2)]
      exact qGet_qvals_ne _ _ _ _ _ _ (fun hand => (hk.2.1 hand.1) hand.2)
  | hdevOp m =>
    dsimp only [runGet, getHdevS, touchedQ, touchedJ]
    obtain ⟨h1, h2, h3, h4⟩ := qGet_frame (fun ds => hdev sq ds.x (orOne m))
      .hdev (orOne m) ds
    exact ⟨h1, h2, h3, fun s k _ => h4 s k⟩
  | ohdevOp m =>
    dsimp only [runGet, getOhdevS, touchedQ, touchedJ]
    obtain ⟨h1, h2, h3, h4⟩ := qGet_frame (fun ds => ohdev sq ds.x (orOne m))
      .ohdev (orOne m) ds
    exact ⟨h1, h2, h3, fun s k _ => h4 s k⟩
  | totdevOp m =>
    dsimp only [runGet, getTotdevS, touchedQ, touchedJ]
    obtain ⟨h1, h2, h3, h4⟩ := qGet_frame (fun ds => totdev sq ds.x (orOne m))
      .totdev (orOne m) ds
    exact ⟨h1, h2, h3, fun s k _ => h4 s k⟩
  | mtotdevOp m =>
    dsimp only [runGet, getMtotdevS, touchedQ, touchedJ]
    obtain ⟨h1, h2, h3, h4⟩ := qGet_frame (fun ds => mtotdev sq ds.x m)
      .mtotdev (orOne m) ds
    exact ⟨h1, h2, h3, fun s k _ => h4 s k⟩
  | ttotdevOp m =>
    dsimp only [runGet, getTtotdevS, touchedQ, touchedJ]
    cases h : ds.qvals .ttotdev (orOne m) with
    | some v =>
      simp [h]
    | none =>
      simp only [h]
      simp only [getMtotdevS]
      rw [orOne_idem]
      obtain ⟨h1, h2, h3, h4⟩ :=
        qGet_frame (fun ds => mtotdev sq ds.x (orOne m)) .mtotdev (orOne m) ds
      refine ⟨h1, h2, ?_, fun s k _ => h4 s k⟩
      intro s k hk
      simp only [List.mem_cons, List.mem_singleton, Prod.mk.injEq] at hk
      push_neg at hk
      rw [updQ_ne _ _ _ _ _ _ (fun hand => (hk.1 hand.1) hand.2)]
      exact qGet_qvals_ne _ _ _ _ _ _ (fun hand => (hk.2.1 hand.1) hand.2)
  | htotdevOp m =>
    dsimp only [runGet, getHtotdevS, touchedQ, touchedJ]
    obtain ⟨h1, h2, h3, h4⟩ := qGet_frame (fun ds => htotdev sq ds.y m)
      .htotdev (orOne m) ds
    exact ⟨h1, h2, h3, fun s k _ => h4 s k⟩

/-- Witness for the amended C9: a concrete getter call keeps `x` and an
untouched cache entry intact. -/
theorem claim9_getter_frame_witness :
    (runGet id (GetOp.adevOp 1) Dataset.empty).x = Dataset.empty.x ∧
    (runGet id (GetOp.adevOp 1) Dataset.empty).qvals QStat.oadev 5 =
      Dataset.empty.qvals QStat.oadev 5 :=
  ⟨(claim9_getter_frame id (GetOp.adevOp 1) Dataset.empty).1,
   (claim9_getter_frame id (GetOp.adevOp 1) Dataset.empty).2.2.1 QStat.oadev 5
     (by decide)⟩

/-- C9 as stated (only the corresponding cache entry may change) is
false: `getTdev(1)` on a fresh dataset also writes the `values.mdev[1]`
entry, which belongs to a different statistic. -/
theorem claim9_counterexample :
    (runGet id (GetOp.tdevOp 1) Dataset.empty).qvals QStat.mdev 1 ≠
      Dataset.empty.qvals QStat.mdev 1 := by
  simp [runGet, getTdevS, getMdevS, qGet, Dataset.empty, updQ, orOne]

/-- C3 fails on the code: the load operations overwrite `x` and `y` but
never clear `values`, so after a reload `getAdev(1)` still returns the
value cached for the previous data (`0`), which differs from the value
computed from the newly loaded samples (`2`). -/
theorem claim3_reload_returns_stale_value :
    staleDemo3.x = [0, 1, 0, 1, 0, 1, 0, 1] ∧
    (getAdevS id 1 staleDemo3).1 = 0 ∧
    adev id staleDemo3.x 1 = 2 ∧
    (getAdevS id 1 staleDemo3).1 ≠ adev id staleDemo3.x 1 := by
  have h1 : adev id [0, 1, 2, 3, 4] 1 = 0 := by
    norm_num [adev, secondDiff, xg, orOne, MIN_SAMPLES, List.range_succ,
      List.foldl_append, List.foldl_cons, List.foldl_nil, List.getD_cons_zero,
      List.getD_cons_succ]
  have h2 : adev id [0, 1, 0, 1, 0, 1, 0, 1] 1 = 2 := by
    norm_num [adev, secondDiff, xg, orOne, MIN_SAMPLES, List.range_succ,
      List.foldl_append, List.foldl_cons, List.foldl_nil, List.getD_cons_zero,
      List.getD_cons_succ]
  have hx : staleDemo3.x = [0, 1, 0, 1, 0, 1, 0, 1] := rfl
  have hget : (getAdevS id 1 staleDemo3).1 = adev id [0, 1, 2, 3, 4] 1 := by
    simp [staleDemo3, staleDemo2, staleDemo1, loadPhaseFromArrayS, getAdevS,
      qGet, Dataset.empty, updQ, orOne]
  refine ⟨hx, ?_, ?_, ?_⟩
  · rw [hget, h1]
  · rw [hx, h2]
  · rw [hget, h1, hx, h2]
    norm_num

/-- C10 as amended: for the conversions, the windowed statistics,
`getStdev`, and the deviation estimators other than `getMtotdev` and
`getHtotdev`, calling with the falsy `m = 0` behaves exactly like
`m = 1`: the `m = m || 1` coercion runs before anything depends on `m`.
(For `getMtotdev` and `getHtotdev` the constant `half` is computed from
the uncoerced argument, so `m = 0` generally differs from `m = 1`.) -/
theorem claim10_falsy_m_coerced (sq : ℚ → ℚ) (a : List ℚ) (ds : Dataset) :
    phaseToFreq a 0 = phaseToFreq a 1 ∧
    freqToPhase a 0 = freqToPhase a 1 ∧
    getPhaseAvgS 0 ds = getPhaseAvgS 1 ds ∧
    getPhaseMaxS 0 ds = getPhaseMaxS 1 ds ∧
    getPhaseMinS 0 ds = getPhaseMinS 1 ds ∧
    getFreqAvgS 0 ds = getFreqAvgS 1 ds ∧
    getFreqMaxS 0 ds = getFreqMaxS 1 ds ∧
    getFreqMinS 0 ds = getFreqMinS 1 ds ∧
    getStdevS sq 0 ds = getStdevS sq 1 ds ∧
    getAdevS sq 0 ds = getAdevS sq 1 ds ∧
    getOadevS sq 0 ds = getOadevS sq 1 ds ∧
    getMdevS sq 0 ds = getMdevS sq 1 ds ∧
    getTdevS sq 0 ds = getTdevS sq 1 ds ∧
    getHdevS sq 0 ds = getHdevS sq 1 ds ∧
    getOhdevS sq 0 ds = getOhdevS sq 1 ds ∧
    getTotdevS sq 0 ds = getTotdevS sq 1 ds ∧
    getTtotdevS sq 0 ds = getTtotdevS sq 1 ds :=
  ⟨rfl, rfl, rfl, rfl, rfl, rfl, rfl, rfl, rfl, rfl, rfl, rfl, rfl, rfl, rfl,
   rfl, rfl⟩

set_option maxRecDepth 16000 in
set_option maxHeartbeats 6400000 in
/-- C10 as stated is false for `getMtotdev`: its `half` constant is
computed before the `m = m || 1` coercion, so with `m = 0` the drift
estimate divides by `half = 0` and the whole result is poisoned to
`NaN`, while the same call with `m = 1` returns the finite value
`sqrt(25/73)` (here `25/73` under the abstract square root `id`); in the
JavaScript-number model the two calls therefore disagree on the phase
data `[0,1,0,0,0,0,0]`. -/
theorem claim10_counterexample :
    jmtotdev id [0, 1, 0, 0, 0, 0, 0] 0 = JVal.nan ∧
    jmtotdev id [0, 1, 0, 0, 0, 0, 0] 1 = JVal.num (25 / 73) ∧
    jmtotdev id [0, 1, 0, 0, 0, 0, 0] 0 ≠ jmtotdev id [0, 1, 0, 0, 0, 0, 0] 1 := by
  have h0 : jmtotdev id [0, 1, 0, 0, 0, 0, 0] 0 = JVal.nan := by
    norm_num [jmtotdev, jmtotInner, jsum, jget, jadd, jsub, jneg, jmul, jdiv,
      jsqrt, orOne, MIN_SAMPLES, List.range_succ, List.foldl_append,
      List.foldl_cons, List.foldl_nil, List.map_append, List.map_cons,
      List.map_nil]
  have h1 : jmtotdev id [0, 1, 0, 0, 0, 0, 0] 1 = JVal.num (25 / 73) := by
    norm_num [jmtotdev, jmtotInner, jsum, jget, jadd, jsub, jneg, jmul, jdiv,
      jsqrt, orOne, MIN_SAMPLES, List.range_succ, List.foldl_append,
      List.foldl_cons, List.foldl_nil, List.map_append, List.map_cons,
      List.map_nil]
  refine ⟨h0, h1, ?_⟩
  rw [h0, h1]
  simp
